import Mathlib

/-!
Verification of the SQL front end of andygrove/cuckoodb: the tokenizer and
recursive-descent parser of src/src/parser.rs, and the ST_Point scalar
function of src/src/functions/geospatial.rs, shallowly embedded in Lean.

Conventions of the embedding:
* Rust `Result<T, E>` becomes `Except E T`.
* A Rust panic (`unwrap` failure) or non-termination becomes the outer
  `Option` layer: `none` means the Rust code panics or loops forever,
  `some r` means it returns normally with `r`.
* The tokenizer and parser loops are run with explicit fuel; the canonical
  entry points supply enough fuel for every terminating run, and a run that
  exhausts fuel is exactly a run of the Rust code that never terminates
  (the scanner can loop forever on `'@'`, see `nextToken`).
-/

deriving instance DecidableEq for Except

namespace Cuckoo

/-- Token model of src/src/parser.rs (`enum Token`). -/
inductive Token where
  | Identifier (s : String)
  | Keyword (s : String)
  | Operator (s : String)
  | Number (s : String)
  | Comma
  | Whitespace
  | Eq
  | Neq
  | Lt
  | Gt
  | LtEq
  | GtEq
  | Plus
  | Minus
  | Mult
  | Div
  | LParen
  | RParen
deriving DecidableEq

/-- Error model of src/src/parser.rs (`enum ParserError`). -/
inductive ParserError where
  | TokenizerError (msg : String)
  | ParserError (msg : String)
deriving DecidableEq

/-- Whitespace characters recognized by the scanner (`' ' | '\t' | '\n'`). -/
def isWsChar (c : Char) : Bool :=
  c = ' ' || c = '\t' || c = '\n'

/-- `'a' ... 'z' | 'A' ... 'Z'` of the scanner's match arms. -/
def isLetterChar (c : Char) : Bool :=
  ('a' ≤ c && c ≤ 'z') || ('A' ≤ c && c ≤ 'Z')

/-- `'0' ... '9'` of the scanner's match arms. -/
def isDigitChar (c : Char) : Bool :=
  '0' ≤ c && c ≤ '9'

/-- Characters consumed inside the identifier/keyword loop:
letters, digits and `'_'` (note: not `'@'`). -/
def isWordChar (c : Char) : Bool :=
  isLetterChar c || isDigitChar c || c = '_'

/-- Characters that start the identifier/keyword arm:
letters, `'_'` and `'@'`. -/
def isWordStart (c : Char) : Bool :=
  isLetterChar c || c = '_' || c = '@'

/-- ASCII uppercasing of a string, matching Rust `to_uppercase` on the
ASCII-only strings the scanner produces. -/
def toUpperStr (s : String) : String :=
  String.mk (s.data.map Char.toUpper)

/-- The fixed keyword vocabulary of the scanner (matched after uppercasing). -/
def keywords : List String :=
  ["SELECT", "FROM", "WHERE", "LIMIT", "ORDER", "GROUP", "BY",
   "UNION", "ALL", "UPDATE", "DELETE", "IN", "NOT", "NULL", "SET"]

/-- Keyword/identifier decision on a scanned word, as in `next_token`:
the uppercased text is matched against the keyword set and the as-typed
text is kept in the token. -/
def mkWordToken (s : String) : Token :=
  if keywords.contains (toUpperStr s) then Token.Keyword s else Token.Identifier s

/-- One step of the scanner (`Tokenizer::next_token`), on the remaining
character list.  Returns the token and the characters left over, `none`
at end of input, or the tokenizer error on an unhandled character.
Faithful details: the word arm starts on letters, `'_'` or `'@'` but its
greedy loop consumes only letters, digits and `'_'`, so on a leading `'@'`
it scans the empty word and consumes nothing. -/
def nextToken (cs : List Char) : Except ParserError (Option (Token × List Char)) :=
  match cs with
  | [] => .ok none
  | c :: rest =>
    if isWsChar c then .ok (some (Token.Whitespace, rest))
    else if isWordStart c then
      .ok (some (mkWordToken (String.mk (cs.takeWhile isWordChar)), cs.dropWhile isWordChar))
    else if isDigitChar c then
      .ok (some (Token.Number (String.mk (cs.takeWhile isDigitChar)), cs.dropWhile isDigitChar))
    else if c = ',' then .ok (some (Token.Comma, rest))
    else if c = '(' then .ok (some (Token.LParen, rest))
    else if c = ')' then .ok (some (Token.RParen, rest))
    else if c = '+' then .ok (some (Token.Plus, rest))
    else if c = '-' then .ok (some (Token.Minus, rest))
    else if c = '*' then .ok (some (Token.Mult, rest))
    else if c = '/' then .ok (some (Token.Div, rest))
    else if c = '=' then .ok (some (Token.Eq, rest))
    else if c = '<' then
      match rest with
      | '=' :: rest2 => .ok (some (Token.LtEq, rest2))
      | '>' :: rest2 => .ok (some (Token.Neq, rest2))
      | _ => .ok (some (Token.Lt, rest))
    else if c = '>' then
      match rest with
      | '=' :: rest2 => .ok (some (Token.GtEq, rest2))
      | _ => .ok (some (Token.Gt, rest))
    else .error (.TokenizerError ("unhandled char '" ++ String.mk [c] ++ "' in tokenizer"))

/-- The scanner loop of `Tokenizer::tokenize`, with explicit fuel: one unit
of fuel per `next_token` call.  `none` means the fuel ran out. -/
def tokenizeLoop : Nat → List Char → Option (Except ParserError (List Token))
  | 0, _ => none
  | fuel + 1, cs =>
    match nextToken cs with
    | .error e => some (.error e)
    | .ok none => some (.ok [])
    | .ok (some (t, rest)) =>
      match tokenizeLoop fuel rest with
      | none => none
      | some (.error e) => some (.error e)
      | some (.ok ts) => some (.ok (t :: ts))

/-- The raw (whitespace included) token stream of a character list, with the
canonical fuel `length + 1`: enough for every terminating scan, since every
`next_token` call that makes progress consumes at least one character, and a
call that consumes nothing repeats forever (proved below). -/
def tokenizeRaw (cs : List Char) : Option (Except ParserError (List Token)) :=
  tokenizeLoop (cs.length + 1) cs

/-- The whitespace filter applied at the end of `Tokenizer::tokenize`. -/
def notWs (t : Token) : Bool :=
  match t with
  | Token.Whitespace => false
  | _ => true

/-- `Tokenizer::tokenize` on a character list: scan, then drop the
`Whitespace` tokens. -/
def tokenizeChars (cs : List Char) : Option (Except ParserError (List Token)) :=
  (tokenizeRaw cs).map (Except.map (List.filter notWs))

/-- `Tokenizer::tokenize` on the query string. -/
def tokenize (q : String) : Option (Except ParserError (List Token)) :=
  tokenizeChars q.data

/-- Whitespace normalization used to state the whitespace-insensitivity
property: every maximal run of whitespace characters collapses to a single
space.  Two queries differ only in the amount or kind of whitespace between
tokens exactly when their normalizations coincide. -/
def squeeze : List Char → List Char
  | [] => []
  | [c] => if isWsChar c then [' '] else [c]
  | c :: d :: cs =>
    if isWsChar c then
      (if isWsChar d then squeeze (d :: cs) else ' ' :: squeeze (d :: cs))
    else c :: squeeze (d :: cs)

/-- SQL operator model (`enum SQLOperator` of src/src/sql.rs, listed in the
spec's data model). -/
inductive SQLOperator where
  | EQ | NEQ | LT | LTEQ | GT | GTEQ | PLUS | MINUS | MULT | DIV
deriving DecidableEq

/-- AST model (`enum ASTNode` of src/src/sql.rs).  The defining file is not
under src/; the variants and fields are exactly those constructed by
src/src/parser.rs and listed in the spec's data model (§3). -/
inductive ASTNode where
  | SQLIdentifier (id : String) (parts : List String)
  | SQLFunction (id : String) (args : List ASTNode)
  | SQLBinaryExpr (left : ASTNode) (op : SQLOperator) (right : ASTNode)
  | SQLLiteralInt (v : Int)
  | SQLSelect (projection : List ASTNode) (selection : Option ASTNode)
      (relation : Option ASTNode) (limit : Option ASTNode) (order : Option ASTNode)

/-- Rust `{:?}` rendering of a token, as used in the parser's error
messages. -/
def tokenDebug : Token → String
  | Token.Identifier s => "Identifier(\"" ++ s ++ "\")"
  | Token.Keyword s => "Keyword(\"" ++ s ++ "\")"
  | Token.Operator s => "Operator(\"" ++ s ++ "\")"
  | Token.Number s => "Number(\"" ++ s ++ "\")"
  | Token.Comma => "Comma"
  | Token.Whitespace => "Whitespace"
  | Token.Eq => "Eq"
  | Token.Neq => "Neq"
  | Token.Lt => "Lt"
  | Token.Gt => "Gt"
  | Token.LtEq => "LtEq"
  | Token.GtEq => "GtEq"
  | Token.Plus => "Plus"
  | Token.Minus => "Minus"
  | Token.Mult => "Mult"
  | Token.Div => "Div"
  | Token.LParen => "LParen"
  | Token.RParen => "RParen"

/-- Numeric value of a digit list (most significant first). -/
def digitsToNat (ds : List Char) : Nat :=
  ds.foldl (fun acc d => acc * 10 + (d.toNat - '0'.toNat)) 0

/-- Rust `str::parse::<i64>`: optional sign, one or more digits, value
within the 64-bit signed range; anything else fails. -/
def parseI64 (s : String) : Option Int :=
  match s.data with
  | [] => none
  | c :: rest =>
    let signDigits : Bool × List Char :=
      if c = '-' then (true, rest)
      else if c = '+' then (false, rest)
      else (false, c :: rest)
    match signDigits with
    | (neg, digits) =>
      if digits = [] then none
      else if digits.all isDigitChar then
        let n := digitsToNat digits
        if neg then
          if n ≤ 2 ^ 63 then some (-(n : Int)) else none
        else
          if n ≤ 2 ^ 63 - 1 then some (n : Int) else none
      else none

/-- `Parser::get_precedence`: it returns `Ok` on every token (the error arm
is commented out in the source), so it is modelled as a pure function. -/
def getPrecedence : Token → Nat
  | Token.Eq | Token.Lt | Token.LtEq | Token.Neq | Token.Gt | Token.GtEq => 20
  | Token.Plus | Token.Minus => 30
  | Token.Mult | Token.Div => 40
  | _ => 0

/-- `Parser::to_sql_operator`. -/
def toSqlOperator (t : Token) : Except ParserError SQLOperator :=
  match t with
  | Token.Eq => .ok SQLOperator.EQ
  | Token.Lt => .ok SQLOperator.LT
  | Token.LtEq => .ok SQLOperator.LTEQ
  | Token.Gt => .ok SQLOperator.GT
  | Token.GtEq => .ok SQLOperator.GTEQ
  | _ => .error (.ParserError ("Unsupported operator " ++ tokenDebug t))

/-- `Parser::parse_keyword`: peek; on a case-insensitive keyword match
consume it and report true, else leave the cursor unmoved.  Returns the
flag and the new cursor. -/
def parseKeyword (toks : List Token) (i : Nat) (expected : String) : Bool × Nat :=
  match toks[i]? with
  | some (Token.Keyword k) =>
    if toUpperStr k = expected then (true, i + 1) else (false, i)
  | _ => (false, i)

/-- `Parser::next_token` advances the cursor only when a token remains;
this is the cursor after one `next_token` call. -/
def bumpIndex (toks : List Token) (i : Nat) : Nat :=
  if i < toks.length then i + 1 else i

/-- The EOF failure of `Parser::parse_prefix`. -/
def eofError : ParserError :=
  .ParserError "Prefix parser expected a keyword but hit EOF"

mutual

/-- `Parser::parse_expr` on token list `toks` at cursor `i` with minimum
precedence `prec`: one prefix expression, then the infix loop.  Result is
the node and the new cursor; fuel is spent on every recursive call. -/
def parseExpr : Nat → List Token → Nat → Nat → Option (Except ParserError (ASTNode × Nat))
  | 0, _, _, _ => none
  | fuel + 1, toks, i, prec =>
    match parsePrefixRule fuel toks i with
    | none => none
    | some (.error e) => some (.error e)
    | some (.ok (e, j)) => parseExprStep fuel toks j prec e
termination_by structural fuel => fuel

/-- The `while let Some(tok) = self.peek_token()` loop inside
`Parser::parse_expr`: stop when the next token's precedence is not strictly
greater than `prec`, otherwise take one infix step and continue. -/
def parseExprStep : Nat → List Token → Nat → Nat → ASTNode → Option (Except ParserError (ASTNode × Nat))
  | 0, _, _, _, _ => none
  | fuel + 1, toks, i, prec, expr =>
    match toks[i]? with
    | none => some (.ok (expr, i))
    | some tok =>
      if prec ≥ getPrecedence tok then some (.ok (expr, i))
      else
        match parseInfixRule fuel toks i expr (getPrecedence tok) with
        | none => none
        | some (.error e) => some (.error e)
        | some (.ok (newExpr, j)) =>
          match newExpr with
          | some ne => parseExprStep fuel toks j prec ne
          | none => parseExprStep fuel toks j prec expr
termination_by structural fuel => fuel

/-- `Parser::parse_prefix`: consume one token and dispatch on it. -/
def parsePrefixRule : Nat → List Token → Nat → Option (Except ParserError (ASTNode × Nat))
  | fuel, toks, i =>
    match toks[i]? with
    | none => some (.error eofError)
    | some t =>
      match t with
      | Token.Keyword k =>
        if toUpperStr k = "SELECT" then
          match fuel with
          | 0 => none
          | f + 1 => parseSelect f toks (i + 1)
        else some (.error (.ParserError ("No prefix parser for keyword " ++ k)))
      | Token.Identifier id =>
        match toks[i + 1]? with
        | some Token.LParen =>
          match fuel with
          | 0 => none
          | f + 1 =>
            match parseExprList f toks (i + 2) with
            | none => none
            | some (.error e) => some (.error e)
            | some (.ok (args, j)) =>
              -- `self.next_token(); // skip rparen` — unchecked consumption
              some (.ok (ASTNode.SQLFunction id args, bumpIndex toks j))
        | _ => some (.ok (ASTNode.SQLIdentifier id [], i + 1))
      | Token.Number n =>
        match parseI64 n with
        | some v => some (.ok (ASTNode.SQLLiteralInt v, i + 1))
        | none => none    -- `n.parse::<i64>().unwrap()` panics
      | _ => some (.error (.ParserError ("Prefix parser expected a keyword but found " ++ tokenDebug t)))
termination_by structural fuel => fuel

/-- `Parser::parse_infix`: consume one token; only `Eq` and `Gt` build a
`SQLBinaryExpr` (right side via `parse_expr` at the same precedence); every
other token is the "No infix parser" failure; at EOF, `Ok(None)`. -/
def parseInfixRule : Nat → List Token → Nat → ASTNode → Nat → Option (Except ParserError (Option ASTNode × Nat))
  | fuel, toks, i, expr, prec =>
    match toks[i]? with
    | none => some (.ok (none, i))
    | some tok =>
      match tok with
      | Token.Eq | Token.Gt =>
        match toSqlOperator tok with
        | .error e => some (.error e)
        | .ok op =>
          match fuel with
          | 0 => none
          | f + 1 =>
            match parseExpr f toks (i + 1) prec with
            | none => none
            | some (.error e) => some (.error e)
            | some (.ok (right, j)) =>
              some (.ok (some (ASTNode.SQLBinaryExpr expr op right), j))
      | _ => some (.error (.ParserError ("No infix parser for token " ++ tokenDebug tok)))
termination_by structural fuel => fuel

/-- `Parser::parse_select` (entered after the SELECT keyword was consumed):
projection list, optional FROM relation, optional WHERE selection, then the
trailing-token check. -/
def parseSelect : Nat → List Token → Nat → Option (Except ParserError (ASTNode × Nat))
  | 0, _, _ => none
  | fuel + 1, toks, i =>
    match parseExprList fuel toks i with
    | none => none
    | some (.error e) => some (.error e)
    | some (.ok (projection, j)) =>
      match parseKeyword toks j "FROM" with
      | (fromFlag, j1) =>
        let afterFrom : Option (Except ParserError (Option ASTNode × Nat)) :=
          if fromFlag then
            match parseExpr fuel toks j1 0 with
            | none => none
            | some (.error e) => some (.error e)
            | some (.ok (r, k)) => some (.ok (some r, k))
          else some (.ok (none, j1))
        match afterFrom with
        | none => none
        | some (.error e) => some (.error e)
        | some (.ok (relation, j2)) =>
          match parseKeyword toks j2 "WHERE" with
          | (whereFlag, j3) =>
            let afterWhere : Option (Except ParserError (Option ASTNode × Nat)) :=
              if whereFlag then
                match parseExpr fuel toks j3 0 with
                | none => none
                | some (.error e) => some (.error e)
                | some (.ok (s, k)) => some (.ok (some s, k))
              else some (.ok (none, j3))
            match afterWhere with
            | none => none
            | some (.error e) => some (.error e)
            | some (.ok (selection, j4)) =>
              match toks[j4]? with
              | some tok =>
                some (.error (.ParserError ("Unexpected token at end of SELECT: " ++ tokenDebug tok)))
              | none =>
                some (.ok (ASTNode.SQLSelect projection selection relation none none, j4))
termination_by structural fuel => fuel

/-- `Parser::parse_expr_list`: push one expression; a following comma is
consumed and the loop repeats; any other following token stops the loop;
when no token follows, the loop body runs again (there is no break in the
`None` arm of the source). -/
def parseExprList : Nat → List Token → Nat → Option (Except ParserError (List ASTNode × Nat))
  | 0, _, _ => none
  | fuel + 1, toks, i =>
    match parseExpr fuel toks i 0 with
    | none => none
    | some (.error e) => some (.error e)
    | some (.ok (x, j)) =>
      match toks[j]? with
      | some t =>
        if t = Token.Comma then
          match parseExprList fuel toks (j + 1) with
          | none => none
          | some (.error e) => some (.error e)
          | some (.ok (xs, k)) => some (.ok (x :: xs, k))
        else some (.ok ([x], j))
      | none =>
        match parseExprList fuel toks j with
        | none => none
        | some (.error e) => some (.error e)
        | some (.ok (xs, k)) => some (.ok (x :: xs, k))
termination_by structural fuel => fuel

end

/-- Canonical parser fuel: ample for every token list, since each unit of
recursion depth consumes at least one token every few levels. -/
def parserFuel (toks : List Token) : Nat :=
  4 * toks.length + 8

/-- `Parser::parse`: `parse_expr(0)` from cursor 0, returning the node. -/
def parse (toks : List Token) : Option (Except ParserError ASTNode) :=
  (parseExpr (parserFuel toks) toks 0 0).map (Except.map Prod.fst)

/-- `Parser::parse_sql`: tokenize, `.unwrap()` the result (a tokenizer
error therefore panics — modelled as `none`), then parse. -/
def parse_sql (q : String) : Option (Except ParserError ASTNode) :=
  match tokenize q with
  | none => none
  | some (.error _) => none
  | some (.ok toks) => parse toks

/-! ## ST_Point (src/src/functions/geospatial.rs) -/

mutual

/-- Modelled from the spec: the columnar array of the external arrow crate
(`Array { len, data }`), whose element data is one of the typed
homogeneous arrays or a struct-of-arrays (spec §6).  Only the variants
`STPointFunc::execute` dispatches on are needed; `Rc` sharing is dropped. -/
inductive CArray where
  | mk (len : Nat) (data : CArrayData)

/-- Modelled from the spec: the typed element data of a columnar array
(`enum ArrayData`): floating-point, integer or text elements, or a named
struct-of-arrays. -/
inductive CArrayData where
  | Float64 (xs : List Float)
  | Int64 (xs : List Int)
  | Utf8 (xs : List String)
  | Struct (fields : List CArray)

end

/-- Length field of a columnar array. -/
def CArray.len : CArray → Nat
  | CArray.mk n _ => n

/-- Data field of a columnar array. -/
def CArray.data : CArray → CArrayData
  | CArray.mk _ d => d

/-- Modelled from the spec: the runtime value representation of
src/src/types.rs (not under src/): a scalar or a columnar array
(spec §6). -/
inductive Value where
  | ScalarInt (v : Int)
  | Column (arr : CArray)

/-- Modelled from the spec: the open-ended descriptive execution error of
src/src/types.rs (`ExecutionError::Custom`). -/
inductive ExecutionError where
  | Custom (msg : String)
deriving DecidableEq

/-- `STPointFunc::execute` of src/src/functions/geospatial.rs: require
exactly two arguments, both columns of Float64 data, and build a
struct-of-arrays column of the two input arrays (length taken from the
first); anything else is a descriptive error. -/
def stPointExecute (args : List Value) : Except ExecutionError Value :=
  if args.length ≠ 2 then
    .error (.Custom "Wrong argument count for ST_Point")
  else
    match args with
    | [Value.Column arr1, Value.Column arr2] =>
      match arr1.data, arr2.data with
      | CArrayData.Float64 _, CArrayData.Float64 _ =>
        .ok (Value.Column (CArray.mk arr1.len (CArrayData.Struct [arr1, arr2])))
      | _, _ => .error (.Custom "Unsupported type for ST_Point")
    | _ => .error (.Custom "Unsupported type for ST_Point")

/-! ## Lemmas and claim theorems -/

/-- `dropWhile` never lengthens a list. -/
theorem dropWhile_length_le (P : Char → Bool) (cs : List Char) :
    (cs.dropWhile P).length ≤ cs.length := by
  induction cs with
  | nil => simp
  | cons c cs' ih =>
    by_cases h : P c
    · rw [List.dropWhile_cons_of_pos h]
      exact Nat.le_succ_of_le ih
    · rw [List.dropWhile_cons_of_neg h]

/-- `dropWhile` either leaves a list unchanged or strictly shortens it. -/
theorem dropWhile_eq_or_shorter (P : Char → Bool) (cs : List Char) :
    cs.dropWhile P = cs ∨ (cs.dropWhile P).length < cs.length := by
  cases cs with
  | nil => left; rfl
  | cons c cs' =>
    by_cases h : P c
    · right
      rw [List.dropWhile_cons_of_pos h]
      exact Nat.lt_succ_of_le (dropWhile_length_le P cs')
    · left
      rw [List.dropWhile_cons_of_neg h]

/-- Scanner shape: whitespace consumes exactly one character. -/
theorem nextToken_ws (c : Char) (cs : List Char) (h : isWsChar c = true) :
    nextToken (c :: cs) = .ok (some (Token.Whitespace, cs)) := by
  simp [nextToken, h]

/-- Scanner shape: the identifier/keyword arm scans the greedy word. -/
theorem nextToken_word (c : Char) (cs : List Char) (h1 : isWsChar c = false)
    (h2 : isWordStart c = true) :
    nextToken (c :: cs) =
      .ok (some (mkWordToken (String.mk ((c :: cs).takeWhile isWordChar)),
        (c :: cs).dropWhile isWordChar)) := by
  simp only [nextToken]
  rw [if_neg (by simp [h1]), if_pos h2]

/-- Scanner shape: the number arm scans the greedy digit run. -/
theorem nextToken_digit (c : Char) (cs : List Char) (h1 : isWsChar c = false)
    (h2 : isWordStart c = false) (h3 : isDigitChar c = true) :
    nextToken (c :: cs) =
      .ok (some (Token.Number (String.mk ((c :: cs).takeWhile isDigitChar)),
        (c :: cs).dropWhile isDigitChar)) := by
  simp only [nextToken]
  rw [if_neg (by simp [h1]), if_neg (by simp [h2]), if_pos h3]

/-- Scanner shape: `<` followed by a character other than `=` or `>`
yields `Lt` without consuming the lookahead. -/
theorem nextToken_lt_other (d : Char) (cs : List Char) (h1 : ¬(d = '='))
    (h2 : ¬(d = '>')) :
    nextToken ('<' :: d :: cs) = .ok (some (Token.Lt, d :: cs)) := by
  have hdef : nextToken ('<' :: d :: cs) =
      (match d :: cs with
        | '=' :: rest2 => Except.ok (some (Token.LtEq, rest2))
        | '>' :: rest2 => Except.ok (some (Token.Neq, rest2))
        | _ => Except.ok (some (Token.Lt, d :: cs))) := rfl
  rw [hdef]
  split
  · rename_i heq; cases heq; exact absurd rfl h1
  · rename_i heq; cases heq; exact absurd rfl h2
  · rfl

/-- Scanner shape: `>` followed by a character other than `=` yields `Gt`
without consuming the lookahead. -/
theorem nextToken_gt_other (d : Char) (cs : List Char) (h1 : ¬(d = '=')) :
    nextToken ('>' :: d :: cs) = .ok (some (Token.Gt, d :: cs)) := by
  have hdef : nextToken ('>' :: d :: cs) =
      (match d :: cs with
        | '=' :: rest2 => Except.ok (some (Token.GtEq, rest2))
        | _ => Except.ok (some (Token.Gt, d :: cs))) := rfl
  rw [hdef]
  split
  · rename_i heq; cases heq; exact absurd rfl h1
  · rfl

/-- Scanner shape: an unrecognized character is the tokenizer error. -/
theorem nextToken_err (c : Char) (cs : List Char) (h1 : isWsChar c = false)
    (h2 : isWordStart c = false) (h3 : isDigitChar c = false)
    (h4 : ¬(c = ',')) (h5 : ¬(c = '(')) (h6 : ¬(c = ')')) (h7 : ¬(c = '+'))
    (h8 : ¬(c = '-')) (h9 : ¬(c = '*')) (h10 : ¬(c = '/')) (h11 : ¬(c = '='))
    (h12 : ¬(c = '<')) (h13 : ¬(c = '>')) :
    nextToken (c :: cs) =
      .error (.TokenizerError ("unhandled char '" ++ String.mk [c] ++ "' in tokenizer")) := by
  simp [nextToken, h1, h2, h3, h4, h5, h6, h7, h8, h9, h10, h11, h12, h13]

/-- A successful scanner step either consumes at least one character or
returns the input unchanged (the `'@'` case). -/
theorem nextToken_progress (cs : List Char) (t : Token) (rest : List Char)
    (h : nextToken cs = .ok (some (t, rest))) :
    rest = cs ∨ rest.length < cs.length := by
  match cs with
  | [] => simp [nextToken] at h
  | c :: cs' =>
    by_cases h1 : isWsChar c
    · rw [nextToken_ws c cs' h1] at h
      cases h; right; simp only [List.length_cons]; omega
    · by_cases h2 : isWordStart c
      · rw [nextToken_word c cs' (by simp [h1]) h2] at h
        cases h; exact dropWhile_eq_or_shorter isWordChar (c :: cs')
      · by_cases h3 : isDigitChar c
        · rw [nextToken_digit c cs' (by simp [h1]) (by simp [h2]) h3] at h
          cases h; exact dropWhile_eq_or_shorter isDigitChar (c :: cs')
        · by_cases h4 : c = ','
          · subst h4; cases h; right; simp only [List.length_cons]; omega
          · by_cases h5 : c = '('
            · subst h5; cases h; right; simp only [List.length_cons]; omega
            · by_cases h6 : c = ')'
              · subst h6; cases h; right; simp only [List.length_cons]; omega
              · by_cases h7 : c = '+'
                · subst h7; cases h; right; simp only [List.length_cons]; omega
                · by_cases h8 : c = '-'
                  · subst h8; cases h; right; simp only [List.length_cons]; omega
                  · by_cases h9 : c = '*'
                    · subst h9; cases h; right; simp only [List.length_cons]; omega
                    · by_cases h10 : c = '/'
                      · subst h10; cases h; right; simp only [List.length_cons]; omega
                      · by_cases h11 : c = '='
                        · subst h11; cases h; right; simp only [List.length_cons]; omega
                        · by_cases h12 : c = '<'
                          · subst h12
                            match cs' with
                            | [] => cases h; right; simp only [List.length_cons]; omega
                            | '=' :: cs'' => cases h; right; simp only [List.length_cons]; omega
                            | '>' :: cs'' => cases h; right; simp only [List.length_cons]; omega
                            | d :: cs'' =>
                              by_cases hd1 : d = '='
                              · subst hd1; cases h; right; simp only [List.length_cons]; omega
                              · by_cases hd2 : d = '>'
                                · subst hd2; cases h; right; simp only [List.length_cons]; omega
                                · rw [nextToken_lt_other d cs'' hd1 hd2] at h
                                  cases h; right; simp only [List.length_cons]; omega
                          · by_cases h13 : c = '>'
                            · subst h13
                              match cs' with
                              | [] => cases h; right; simp only [List.length_cons]; omega
                              | '=' :: cs'' => cases h; right; simp only [List.length_cons]; omega
                              | d :: cs'' =>
                                by_cases hd1 : d = '='
                                · subst hd1; cases h; right; simp only [List.length_cons]; omega
                                · rw [nextToken_gt_other d cs'' hd1] at h
                                  cases h; right; simp only [List.length_cons]; omega
                            · rw [nextToken_err c cs' (by simp [h1]) (by simp [h2])
                                (by simp [h3]) h4 h5 h6 h7 h8 h9 h10 h11 h12 h13] at h
                              cases h

/-- Fuel monotonicity of the scanner loop: a run that finishes within
`f` steps finishes identically with more fuel. -/
theorem tokenizeLoop_mono (f f' : Nat) (hle : f ≤ f') (cs : List Char)
    (r : Except ParserError (List Token)) (h : tokenizeLoop f cs = some r) :
    tokenizeLoop f' cs = some r := by
  induction f generalizing f' cs r with
  | zero => simp [tokenizeLoop] at h
  | succ g ih =>
    obtain ⟨g', rfl⟩ : ∃ g', f' = g' + 1 := ⟨f' - 1, by omega⟩
    rw [tokenizeLoop] at h
    rw [tokenizeLoop]
    match hn : nextToken cs with
    | .error e => rw [hn] at h; exact h
    | .ok none => rw [hn] at h; exact h
    | .ok (some (t, rest)) =>
      rw [hn] at h
      dsimp only at h ⊢
      match hr : tokenizeLoop g rest with
      | none => rw [hr] at h; simp at h
      | some r2 =>
        rw [hr] at h
        rw [ih g' (by omega) rest r2 hr]
        exact h

/-- A scanner step that consumes nothing repeats forever: the loop never
terminates on such a state, whatever the fuel. -/
theorem nextToken_stuck_loop (cs : List Char) (t : Token)
    (h : nextToken cs = .ok (some (t, cs))) (f : Nat) :
    tokenizeLoop f cs = none := by
  induction f with
  | zero => rfl
  | succ g ih =>
    rw [tokenizeLoop, h]
    dsimp only
    rw [ih]

/-- The canonical fuel is complete: a run that finishes within any fuel
finishes within fuel `length + 1`, with the same result. -/
theorem tokenizeLoop_complete (f : Nat) (cs : List Char)
    (r : Except ParserError (List Token)) (h : tokenizeLoop f cs = some r) :
    tokenizeRaw cs = some r := by
  induction f generalizing cs r with
  | zero => simp [tokenizeLoop] at h
  | succ g ih =>
    rw [tokenizeLoop] at h
    rw [tokenizeRaw, tokenizeLoop]
    match hn : nextToken cs with
    | .error e => rw [hn] at h; exact h
    | .ok none => rw [hn] at h; exact h
    | .ok (some (t, rest)) =>
      rw [hn] at h
      dsimp only at h ⊢
      rcases nextToken_progress cs t rest hn with heq | hlt
      · subst heq
        rw [nextToken_stuck_loop rest t hn g] at h
        simp at h
      · match hr : tokenizeLoop g rest with
        | none => rw [hr] at h; simp at h
        | some r2 =>
          rw [hr] at h
          have hraw := ih rest r2 hr
          rw [tokenizeRaw] at hraw
          rw [tokenizeLoop_mono (rest.length + 1) cs.length (by omega) rest r2 hraw]
          exact h

/-- One-step unfolding of the canonical raw scan: a step that consumes
nothing diverges (`none`); otherwise the scan continues on the leftover
characters. -/
theorem tokenizeRaw_eq (cs : List Char) :
    tokenizeRaw cs =
      match nextToken cs with
      | .error e => some (.error e)
      | .ok none => some (.ok [])
      | .ok (some (t, rest)) =>
        if rest = cs then none
        else (tokenizeRaw rest).map (Except.map (fun ts => t :: ts)) := by
  conv_lhs => rw [tokenizeRaw, tokenizeLoop]
  match hn : nextToken cs with
  | .error e => rfl
  | .ok none => rfl
  | .ok (some (t, rest)) =>
    dsimp only
    rcases nextToken_progress cs t rest hn with heq | hlt
    · subst heq
      rw [if_pos rfl]
      rw [nextToken_stuck_loop rest t hn rest.length]
    · rw [if_neg (fun hcon => by rw [hcon] at hlt; omega)]
      match hr : tokenizeRaw rest with
      | none =>
        match hcs : tokenizeLoop cs.length rest with
        | none => rfl
        | some r2 =>
          exact absurd (tokenizeLoop_complete cs.length rest r2 hcs) (by rw [hr]; simp)
      | some r2 =>
        have hr2 := hr
        rw [tokenizeRaw] at hr2
        rw [tokenizeLoop_mono (rest.length + 1) cs.length (by omega) rest r2 hr2]
        cases r2 <;> rfl

/-- One filtered-scan step when the scanner consumes at least one
character: the token is kept unless it is whitespace. -/
theorem tokenizeChars_step (cs : List Char) (t : Token) (rest : List Char)
    (hn : nextToken cs = .ok (some (t, rest))) (hlt : rest.length < cs.length) :
    tokenizeChars cs = if notWs t
      then (tokenizeChars rest).map (Except.map (fun ts => t :: ts))
      else tokenizeChars rest := by
  rw [tokenizeChars, tokenizeRaw_eq, hn]
  dsimp only
  rw [if_neg (fun hcon => by rw [hcon] at hlt; omega)]
  match hr : tokenizeRaw rest with
  | none => cases hnw : notWs t <;> simp [tokenizeChars, hr, hnw]
  | some (.error e) => cases hnw : notWs t <;> simp [tokenizeChars, hr, hnw, Except.map]
  | some (.ok ts) =>
    cases hnw : notWs t <;> simp [tokenizeChars, hr, hnw, List.filter_cons, Except.map]

/-- A scanner step that consumes nothing makes the whole scan diverge. -/
theorem tokenizeChars_stuck (cs : List Char) (t : Token)
    (hn : nextToken cs = .ok (some (t, cs))) : tokenizeChars cs = none := by
  rw [tokenizeChars, tokenizeRaw_eq, hn]
  dsimp only
  rw [if_pos rfl]
  rfl

/-- An unrecognized character fails the filtered scan with its error. -/
theorem tokenizeChars_error (cs : List Char) (e : ParserError)
    (hn : nextToken cs = .error e) : tokenizeChars cs = some (.error e) := by
  rw [tokenizeChars, tokenizeRaw_eq, hn]
  rfl

/-- Leading whitespace is invisible to the filtered scan. -/
theorem tokenizeChars_ws_cons (w : Char) (cs : List Char) (hw : isWsChar w = true) :
    tokenizeChars (w :: cs) = tokenizeChars cs := by
  rw [tokenizeChars_step (w :: cs) Token.Whitespace cs (nextToken_ws w cs hw) (by simp)]
  rfl

/-- A whole run of leading whitespace is invisible to the filtered scan. -/
theorem tokenizeChars_dropWhile_ws (cs : List Char) :
    tokenizeChars cs = tokenizeChars (cs.dropWhile isWsChar) := by
  induction cs with
  | nil => rfl
  | cons c cs' ih =>
    by_cases h : isWsChar c
    · rw [tokenizeChars_ws_cons c cs' h, ih, List.dropWhile_cons_of_pos h]
    · rw [List.dropWhile_cons_of_neg h]

/-- `squeeze` keeps a non-whitespace head. -/
theorem squeeze_nonws (c : Char) (cs : List Char) (hc : isWsChar c = false) :
    squeeze (c :: cs) = c :: squeeze cs := by
  cases cs with
  | nil => simp [squeeze, hc]
  | cons d cs' => simp [squeeze, hc]

/-- `squeeze` collapses a whitespace head together with the following
whitespace run into a single space. -/
theorem squeeze_ws (w : Char) (cs : List Char) (hw : isWsChar w = true) :
    squeeze (w :: cs) = ' ' :: squeeze (cs.dropWhile isWsChar) := by
  induction cs generalizing w with
  | nil => simp [squeeze, hw]
  | cons d cs' ih =>
    by_cases hd : isWsChar d
    · rw [List.dropWhile_cons_of_pos hd]
      rw [show squeeze (w :: d :: cs') = squeeze (d :: cs') from by simp [squeeze, hw, hd]]
      exact ih d hd
    · rw [List.dropWhile_cons_of_neg hd]
      simp [squeeze, hw, hd]

/-- `squeeze` never lengthens the input. -/
theorem squeeze_length_le (cs : List Char) : (squeeze cs).length ≤ cs.length := by
  induction cs with
  | nil => simp [squeeze]
  | cons c cs' ih =>
    cases cs' with
    | nil => by_cases h : isWsChar c <;> simp [squeeze, h]
    | cons d cs'' =>
      by_cases h : isWsChar c
      · by_cases hd : isWsChar d
        · rw [show squeeze (c :: d :: cs'') = squeeze (d :: cs'') from by simp [squeeze, h, hd]]
          simp only [List.length_cons] at ih ⊢
          omega
        · rw [show squeeze (c :: d :: cs'') = ' ' :: squeeze (d :: cs'') from by
            simp [squeeze, h, hd]]
          simp only [List.length_cons] at ih ⊢
          omega
      · rw [squeeze_nonws c (d :: cs'') (by simpa using h)]
        simp only [List.length_cons] at ih ⊢
        omega

/-- For a predicate that holds only on non-whitespace characters, greedy
scans commute with `squeeze`. -/
theorem takeWhile_dropWhile_squeeze (P : Char → Bool)
    (hP : ∀ c, P c = true → isWsChar c = false) (cs : List Char) :
    (squeeze cs).takeWhile P = cs.takeWhile P ∧
    (squeeze cs).dropWhile P = squeeze (cs.dropWhile P) := by
  induction cs with
  | nil => simp [squeeze]
  | cons c cs' ih =>
    by_cases hc : isWsChar c
    · rw [squeeze_ws c cs' hc]
      have hPs : P ' ' = false := by
        cases hps : P ' ' with
        | false => rfl
        | true => exact absurd (hP ' ' hps) (by decide)
      have hPc : P c = false := by
        cases hpc : P c with
        | false => rfl
        | true => rw [hP c hpc] at hc; exact absurd hc (by simp)
      refine ⟨?_, ?_⟩
      · rw [List.takeWhile_cons_of_neg (by simp [hPs]),
          List.takeWhile_cons_of_neg (by simp [hPc])]
      · rw [List.dropWhile_cons_of_neg (by simp [hPs]),
          List.dropWhile_cons_of_neg (by simp [hPc])]
        rw [← squeeze_ws c cs' hc]
    · rw [squeeze_nonws c cs' (by simpa using hc)]
      by_cases hp : P c
      · refine ⟨?_, ?_⟩
        · rw [List.takeWhile_cons_of_pos hp, List.takeWhile_cons_of_pos hp, ih.1]
        · rw [List.dropWhile_cons_of_pos hp, List.dropWhile_cons_of_pos hp, ih.2]
      · refine ⟨?_, ?_⟩
        · rw [List.takeWhile_cons_of_neg hp, List.takeWhile_cons_of_neg hp]
        · rw [List.dropWhile_cons_of_neg hp, List.dropWhile_cons_of_neg hp,
            squeeze_nonws c cs' (by simpa using hc)]

/-- The word token built from a scan is never the whitespace token. -/
theorem notWs_mkWordToken (s : String) : notWs (mkWordToken s) = true := by
  rw [mkWordToken]
  split <;> rfl

/-- A word-start character is `'@'` or a word character. -/
theorem wordStart_cases (c : Char) (h : isWordStart c = true) :
    c = '@' ∨ isWordChar c = true := by
  simp only [isWordStart, Bool.or_eq_true] at h
  rcases h with (hl | h_) | ha
  · right; simp [isWordChar, hl]
  · right
    have : c = '_' := by simpa using h_
    subst this; decide
  · left; simpa using ha

/-- Word characters are not whitespace. -/
theorem wordChar_not_ws (c : Char) (h : isWordChar c = true) : isWsChar c = false := by
  cases hw : isWsChar c with
  | false => rfl
  | true =>
    simp only [isWsChar, Bool.or_eq_true, decide_eq_true_eq] at hw
    rcases hw with (h1 | h1) | h1 <;> subst h1 <;> exact absurd h (by decide)

/-- Digit characters are not whitespace. -/
theorem digitChar_not_ws (c : Char) (h : isDigitChar c = true) : isWsChar c = false := by
  cases hw : isWsChar c with
  | false => rfl
  | true =>
    simp only [isWsChar, Bool.or_eq_true, decide_eq_true_eq] at hw
    rcases hw with (h1 | h1) | h1 <;> subst h1 <;> exact absurd h (by decide)

/-- Squeeze-invariance step for a head character that always yields the
same non-whitespace token and leaves exactly the tail. -/
theorem tokenizeChars_squeeze_single (c : Char) (t : Token) (cs : List Char)
    (hc : isWsChar c = false) (hnw : notWs t = true)
    (hn : ∀ x : List Char, nextToken (c :: x) = .ok (some (t, x)))
    (hrec : tokenizeChars cs = tokenizeChars (squeeze cs)) :
    tokenizeChars (c :: cs) = tokenizeChars (squeeze (c :: cs)) := by
  rw [tokenizeChars_step (c :: cs) t cs (hn cs) (by simp)]
  rw [squeeze_nonws c cs hc]
  rw [tokenizeChars_step (c :: squeeze cs) t (squeeze cs) (hn (squeeze cs)) (by simp)]
  rw [hrec]

/-- Tokenization is invariant under whitespace normalization (bounded
form, by strong induction on the length). -/
theorem tokenizeChars_squeeze_bounded :
    ∀ (n : Nat) (cs : List Char), cs.length ≤ n →
      tokenizeChars cs = tokenizeChars (squeeze cs) := by
  intro n
  induction n with
  | zero =>
    intro cs h
    match cs with
    | [] => rfl
    | c :: cs' => simp at h
  | succ m ih =>
    intro cs hlen
    match cs with
    | [] => rfl
    | c :: cs' =>
      have hlen' : cs'.length ≤ m := by simp only [List.length_cons] at hlen; omega
      by_cases hc : isWsChar c
      · rw [tokenizeChars_ws_cons c cs' hc, squeeze_ws c cs' hc,
          tokenizeChars_ws_cons ' ' _ (by decide),
          tokenizeChars_dropWhile_ws cs']
        exact ih (cs'.dropWhile isWsChar) (le_trans (dropWhile_length_le _ _) hlen')
      · have hc' : isWsChar c = false := by simpa using hc
        by_cases hstart : isWordStart c
        · rcases wordStart_cases c hstart with hat | hw
          · subst hat
            have hn1 := nextToken_word '@' cs' hc' hstart
            rw [List.dropWhile_cons_of_neg (by decide)] at hn1
            rw [tokenizeChars_stuck _ _ hn1]
            rw [squeeze_nonws '@' cs' (by decide)]
            have hn2 := nextToken_word '@' (squeeze cs') (by decide) (by decide)
            rw [List.dropWhile_cons_of_neg (by decide)] at hn2
            rw [tokenizeChars_stuck _ _ hn2]
          · have hcomm := takeWhile_dropWhile_squeeze isWordChar wordChar_not_ws cs'
            have hn1 := nextToken_word c cs' hc' hstart
            rw [List.takeWhile_cons_of_pos hw, List.dropWhile_cons_of_pos hw] at hn1
            have hn2 := nextToken_word c (squeeze cs') hc' hstart
            rw [List.takeWhile_cons_of_pos hw, List.dropWhile_cons_of_pos hw, hcomm.1] at hn2
            rw [tokenizeChars_step _ _ _ hn1 (by
              simp only [List.length_cons]
              exact Nat.lt_succ_of_le (dropWhile_length_le _ _))]
            rw [notWs_mkWordToken, if_pos rfl]
            rw [squeeze_nonws c cs' hc']
            rw [tokenizeChars_step _ _ _ hn2 (by
              simp only [List.length_cons]
              exact Nat.lt_succ_of_le (dropWhile_length_le _ _))]
            rw [notWs_mkWordToken, if_pos rfl]
            rw [hcomm.2]
            rw [ih (cs'.dropWhile isWordChar) (le_trans (dropWhile_length_le _ _) hlen')]
        · have hstart' : isWordStart c = false := by simpa using hstart
          by_cases hdig : isDigitChar c
          · have hcomm := takeWhile_dropWhile_squeeze isDigitChar digitChar_not_ws cs'
            have hn1 := nextToken_digit c cs' hc' hstart' hdig
            rw [List.takeWhile_cons_of_pos hdig, List.dropWhile_cons_of_pos hdig] at hn1
            have hn2 := nextToken_digit c (squeeze cs') hc' hstart' hdig
            rw [List.takeWhile_cons_of_pos hdig, List.dropWhile_cons_of_pos hdig,
              hcomm.1] at hn2
            rw [tokenizeChars_step _ _ _ hn1 (by
              simp only [List.length_cons]
              exact Nat.lt_succ_of_le (dropWhile_length_le _ _))]
            rw [if_pos (show notWs (Token.Number _) = true from rfl)]
            rw [squeeze_nonws c cs' hc']
            rw [tokenizeChars_step _ _ _ hn2 (by
              simp only [List.length_cons]
              exact Nat.lt_succ_of_le (dropWhile_length_le _ _))]
            rw [if_pos (show notWs (Token.Number _) = true from rfl)]
            rw [hcomm.2]
            rw [ih (cs'.dropWhile isDigitChar) (le_trans (dropWhile_length_le _ _) hlen')]
          · have hdig' : isDigitChar c = false := by simpa using hdig
            by_cases h4 : c = ','
            · subst h4
              exact tokenizeChars_squeeze_single ',' Token.Comma cs' (by decide) rfl
                (fun x => rfl) (ih cs' hlen')
            · by_cases h5 : c = '('
              · subst h5
                exact tokenizeChars_squeeze_single '(' Token.LParen cs' (by decide) rfl
                  (fun x => rfl) (ih cs' hlen')
              · by_cases h6 : c = ')'
                · subst h6
                  exact tokenizeChars_squeeze_single ')' Token.RParen cs' (by decide) rfl
                    (fun x => rfl) (ih cs' hlen')
                · by_cases h7 : c = '+'
                  · subst h7
                    exact tokenizeChars_squeeze_single '+' Token.Plus cs' (by decide) rfl
                      (fun x => rfl) (ih cs' hlen')
                  · by_cases h8 : c = '-'
                    · subst h8
                      exact tokenizeChars_squeeze_single '-' Token.Minus cs' (by decide) rfl
                        (fun x => rfl) (ih cs' hlen')
                    · by_cases h9 : c = '*'
                      · subst h9
                        exact tokenizeChars_squeeze_single '*' Token.Mult cs' (by decide) rfl
                          (fun x => rfl) (ih cs' hlen')
                      · by_cases h10 : c = '/'
                        · subst h10
                          exact tokenizeChars_squeeze_single '/' Token.Div cs' (by decide) rfl
                            (fun x => rfl) (ih cs' hlen')
                        · by_cases h11 : c = '='
                          · subst h11
                            exact tokenizeChars_squeeze_single '=' Token.Eq cs' (by decide) rfl
                              (fun x => rfl) (ih cs' hlen')
                          · by_cases h12 : c = '<'
                            · subst h12
                              match cs' with
                              | [] => rfl
                              | d :: cs'' =>
                                have hcs'' : cs''.length ≤ m := by
                                  simp only [List.length_cons] at hlen; omega
                                by_cases hd1 : d = '='
                                · subst hd1
                                  rw [tokenizeChars_step ('<' :: '=' :: cs'') Token.LtEq cs'' rfl (by
                                    simp only [List.length_cons]; omega)]
                                  rw [squeeze_nonws '<' _ (by decide), squeeze_nonws '=' _ (by decide)]
                                  rw [tokenizeChars_step ('<' :: '=' :: squeeze cs'') Token.LtEq
                                    (squeeze cs'') rfl (by simp only [List.length_cons]; omega)]
                                  rw [ih cs'' hcs'']
                                · by_cases hd2 : d = '>'
                                  · subst hd2
                                    rw [tokenizeChars_step ('<' :: '>' :: cs'') Token.Neq cs'' rfl (by
                                      simp only [List.length_cons]; omega)]
                                    rw [squeeze_nonws '<' _ (by decide), squeeze_nonws '>' _ (by decide)]
                                    rw [tokenizeChars_step ('<' :: '>' :: squeeze cs'') Token.Neq
                                      (squeeze cs'') rfl (by simp only [List.length_cons]; omega)]
                                    rw [ih cs'' hcs'']
                                  · rw [tokenizeChars_step _ _ _ (nextToken_lt_other d cs'' hd1 hd2) (by
                                      simp only [List.length_cons]; omega)]
                                    rw [squeeze_nonws '<' (d :: cs'') (by decide)]
                                    by_cases hd : isWsChar d
                                    · rw [squeeze_ws d cs'' hd]
                                      rw [tokenizeChars_step _ _ _
                                        (nextToken_lt_other ' ' (squeeze (cs''.dropWhile isWsChar))
                                          (by decide) (by decide)) (by
                                        simp only [List.length_cons]; omega)]
                                      rw [tokenizeChars_ws_cons ' ' _ (by decide)]
                                      rw [tokenizeChars_ws_cons d cs'' hd,
                                        tokenizeChars_dropWhile_ws cs'']
                                      rw [ih (cs''.dropWhile isWsChar)
                                        (le_trans (dropWhile_length_le _ _) hcs'')]
                                    · have hd' : isWsChar d = false := by simpa using hd
                                      rw [squeeze_nonws d cs'' hd']
                                      rw [tokenizeChars_step _ _ _
                                        (nextToken_lt_other d (squeeze cs'') hd1 hd2) (by
                                        simp only [List.length_cons]; omega)]
                                      rw [← squeeze_nonws d cs'' hd']
                                      rw [ih (d :: cs'') (by
                                        simp only [List.length_cons] at hlen ⊢; omega)]
                            · by_cases h13 : c = '>'
                              · subst h13
                                match cs' with
                                | [] => rfl
                                | d :: cs'' =>
                                  have hcs'' : cs''.length ≤ m := by
                                    simp only [List.length_cons] at hlen; omega
                                  by_cases hd1 : d = '='
                                  · subst hd1
                                    rw [tokenizeChars_step ('>' :: '=' :: cs'') Token.GtEq cs'' rfl (by
                                      simp only [List.length_cons]; omega)]
                                    rw [squeeze_nonws '>' _ (by decide), squeeze_nonws '=' _ (by decide)]
                                    rw [tokenizeChars_step ('>' :: '=' :: squeeze cs'') Token.GtEq
                                      (squeeze cs'') rfl (by simp only [List.length_cons]; omega)]
                                    rw [ih cs'' hcs'']
                                  · rw [tokenizeChars_step _ _ _ (nextToken_gt_other d cs'' hd1) (by
                                      simp only [List.length_cons]; omega)]
                                    rw [squeeze_nonws '>' (d :: cs'') (by decide)]
                                    by_cases hd : isWsChar d
                                    · rw [squeeze_ws d cs'' hd]
                                      rw [tokenizeChars_step _ _ _
                                        (nextToken_gt_other ' ' (squeeze (cs''.dropWhile isWsChar))
                                          (by decide)) (by
                                        simp only [List.length_cons]; omega)]
                                      rw [tokenizeChars_ws_cons ' ' _ (by decide)]
                                      rw [tokenizeChars_ws_cons d cs'' hd,
                                        tokenizeChars_dropWhile_ws cs'']
                                      rw [ih (cs''.dropWhile isWsChar)
                                        (le_trans (dropWhile_length_le _ _) hcs'')]
                                    · have hd' : isWsChar d = false := by simpa using hd
                                      rw [squeeze_nonws d cs'' hd']
                                      rw [tokenizeChars_step _ _ _
                                        (nextToken_gt_other d (squeeze cs'') hd1) (by
                                        simp only [List.length_cons]; omega)]
                                      rw [← squeeze_nonws d cs'' hd']
                                      rw [ih (d :: cs'') (by
                                        simp only [List.length_cons] at hlen ⊢; omega)]
                              · have hn1 := nextToken_err c cs' hc' hstart' hdig'
                                  h4 h5 h6 h7 h8 h9 h10 h11 h12 h13
                                have hn2 := nextToken_err c (squeeze cs') hc' hstart' hdig'
                                  h4 h5 h6 h7 h8 h9 h10 h11 h12 h13
                                rw [tokenizeChars_error _ _ hn1, squeeze_nonws c cs' hc',
                                  tokenizeChars_error _ _ hn2]

/-- Unfolding equation for `parsePrefixRule` (its equation lemma is not
generated automatically because it does not split the fuel at top level). -/
theorem parsePrefixRule_eq (fuel : Nat) (toks : List Token) (i : Nat) :
    parsePrefixRule fuel toks i =
      match toks[i]? with
      | none => some (.error eofError)
      | some t =>
        match t with
        | Token.Keyword k =>
          if toUpperStr k = "SELECT" then
            match fuel with
            | 0 => none
            | f + 1 => parseSelect f toks (i + 1)
          else some (.error (.ParserError ("No prefix parser for keyword " ++ k)))
        | Token.Identifier id =>
          match toks[i + 1]? with
          | some Token.LParen =>
            match fuel with
            | 0 => none
            | f + 1 =>
              match parseExprList f toks (i + 2) with
              | none => none
              | some (.error e) => some (.error e)
              | some (.ok (args, j)) =>
                some (.ok (ASTNode.SQLFunction id args, bumpIndex toks j))
          | _ => some (.ok (ASTNode.SQLIdentifier id [], i + 1))
        | Token.Number n =>
          match parseI64 n with
          | some v => some (.ok (ASTNode.SQLLiteralInt v, i + 1))
          | none => none
        | _ => some (.error (.ParserError
            ("Prefix parser expected a keyword but found " ++ tokenDebug t))) := by
  cases fuel <;> rfl

/-- Unfolding equation for `parseInfixRule`. -/
theorem parseInfixRule_eq (fuel : Nat) (toks : List Token) (i : Nat)
    (expr : ASTNode) (prec : Nat) :
    parseInfixRule fuel toks i expr prec =
      match toks[i]? with
      | none => some (.ok (none, i))
      | some tok =>
        match tok with
        | Token.Eq | Token.Gt =>
          match toSqlOperator tok with
          | .error e => some (.error e)
          | .ok op =>
            match fuel with
            | 0 => none
            | f + 1 =>
              match parseExpr f toks (i + 1) prec with
              | none => none
              | some (.error e) => some (.error e)
              | some (.ok (right, j)) =>
                some (.ok (some (ASTNode.SQLBinaryExpr expr op right), j))
        | _ => some (.error (.ParserError
            ("No infix parser for token " ++ tokenDebug tok))) := by
  cases fuel <;> rfl

/-- C1: whenever tokenization fails, `parse_sql` does NOT return the
`TokenizerError` as an error outcome: `parse_sql` calls
`tokenizer.tokenize().unwrap()`, so a tokenizer failure panics (modelled
as `none`) instead of being returned.  On the concrete query `"#"` the
tokenizer fails with the `TokenizerError` naming `'#'`, and `parse_sql`
panics. -/
theorem parse_sql_tokenizer_error_panics :
    (∀ q e, tokenize q = some (.error e) → parse_sql q = none) ∧
    tokenize "#" = some (.error (.TokenizerError "unhandled char '#' in tokenizer")) ∧
    parse_sql "#" = none := by
  refine ⟨?_, rfl, rfl⟩
  intro q e h
  simp [parse_sql, h]

/-- Witness for C1 at the concrete query `"#"`. -/
theorem parse_sql_tokenizer_error_panics_witness : parse_sql "#" = none :=
  parse_sql_tokenizer_error_panics.1 "#"
    (.TokenizerError "unhandled char '#' in tokenizer") (by rfl)

/-- C2: `parse_sql` on the round-trip query returns the Select node with
projection `[id, fname, lname]`, relation `customer` and selection
`id = 1`. -/
theorem parse_sql_roundtrip_select :
    parse_sql "SELECT id, fname, lname FROM customer WHERE id = 1" =
      some (.ok (ASTNode.SQLSelect
        [ASTNode.SQLIdentifier "id" [], ASTNode.SQLIdentifier "fname" [],
         ASTNode.SQLIdentifier "lname" []]
        (some (ASTNode.SQLBinaryExpr (ASTNode.SQLIdentifier "id" [])
          SQLOperator.EQ (ASTNode.SQLLiteralInt 1)))
        (some (ASTNode.SQLIdentifier "customer" []))
        none none)) := rfl

/-- C3 counterexample: `parse_sql "SELECT 1"` does not succeed — after the
projection list consumes the only expression and no token remains, the
expression-list loop runs its body again and fails with the EOF
`ParserError`, contradicting the claimed success with projection
`[IntegerLiteral 1]`. -/
theorem parse_sql_select_one_fails :
    parse_sql "SELECT 1" = some (.error eofError) ∧
    parse_sql "SELECT 1" ≠
      some (.ok (ASTNode.SQLSelect [ASTNode.SQLLiteralInt 1] none none none none)) := by
  refine ⟨rfl, ?_⟩
  intro h
  rw [show parse_sql "SELECT 1" = some (.error eofError) from rfl] at h
  simp at h

/-- Helper: when the cursor is at end of input, `parse_expr` fails with the
EOF error of `parse_prefix` (for any positive fuel and any precedence). -/
theorem parseExpr_eof (toks : List Token) (j : Nat) (hj : toks[j]? = none)
    (g p : Nat) : parseExpr (g + 1) toks j p = some (.error eofError) := by
  simp [parseExpr, parsePrefixRule_eq, hj]

/-- C3 (amended): expression-list parsing stops after an expression only
when a token follows it and that token is not a comma; when no token
remains at all, the loop body runs again and fails with the EOF
`ParserError` (there is no break in the `None` arm of `parse_expr_list`).
Consequently `parse_sql "SELECT 1"` fails with the EOF error instead of
succeeding. -/
theorem parseExprList_stop_behavior (fuel : Nat) (toks : List Token) (i : Nat)
    (x : ASTNode) (j : Nat) (h : parseExpr fuel toks i 0 = some (.ok (x, j))) :
    (∀ t, toks[j]? = some t → t ≠ Token.Comma →
      parseExprList (fuel + 1) toks i = some (.ok ([x], j))) ∧
    (toks[j]? = none → 2 ≤ fuel →
      parseExprList (fuel + 1) toks i = some (.error eofError)) ∧
    parse_sql "SELECT 1" = some (.error eofError) := by
  refine ⟨?_, ?_, rfl⟩
  · intro t ht hne
    simp [parseExprList, h, ht, hne]
  · intro hj hfuel
    obtain ⟨g, rfl⟩ : ∃ g, fuel = g + 2 := ⟨fuel - 2, by omega⟩
    simp [parseExprList, h, hj, parseExpr_eof]

/-- Witness for C3's amended theorem: the stop case on the token list of
`1 FROM` (one expression followed by a non-comma token), and the EOF case
on the token list of `1`. -/
theorem parseExprList_stop_behavior_witness :
    parseExprList 4 [Token.Number "1", Token.Keyword "FROM"] 0 =
      some (.ok ([ASTNode.SQLLiteralInt 1], 1)) ∧
    parseExprList 4 [Token.Number "1"] 0 = some (.error eofError) := by
  constructor
  · exact (parseExprList_stop_behavior 3 [Token.Number "1", Token.Keyword "FROM"] 0
      (ASTNode.SQLLiteralInt 1) 1 (by rfl)).1 (Token.Keyword "FROM") (by rfl) (by decide)
  · exact (parseExprList_stop_behavior 3 [Token.Number "1"] 0
      (ASTNode.SQLLiteralInt 1) 1 (by rfl)).2.1 (by rfl) (by decide)

/-- C4 counterexample: on the token sequence of `a = b = c`, expression
parsing from minimum precedence 0 does NOT return the right-associated
tree `a = (b = c)` the claim describes. -/
theorem parse_chained_eq_not_right_assoc :
    parse [Token.Identifier "a", Token.Eq, Token.Identifier "b",
           Token.Eq, Token.Identifier "c"] ≠
      some (.ok (ASTNode.SQLBinaryExpr (ASTNode.SQLIdentifier "a" [])
        SQLOperator.EQ
        (ASTNode.SQLBinaryExpr (ASTNode.SQLIdentifier "b" [])
          SQLOperator.EQ (ASTNode.SQLIdentifier "c" [])))) := by
  intro h
  rw [show parse [Token.Identifier "a", Token.Eq, Token.Identifier "b",
        Token.Eq, Token.Identifier "c"] =
      some (.ok (ASTNode.SQLBinaryExpr
        (ASTNode.SQLBinaryExpr (ASTNode.SQLIdentifier "a" [])
          SQLOperator.EQ (ASTNode.SQLIdentifier "b" []))
        SQLOperator.EQ (ASTNode.SQLIdentifier "c" []))) from rfl] at h
  simp at h

/-- C4 (amended): chained infix operators of the same precedence associate
to the LEFT: the right side of an infix step is parsed with the operator's
own precedence, and the `parse_expr` loop stops when the next operator's
precedence is not strictly greater, so the second `=` is consumed by the
outer loop, not by the recursive right-side parse. -/
theorem parse_chained_eq_left_assoc :
    parse [Token.Identifier "a", Token.Eq, Token.Identifier "b",
           Token.Eq, Token.Identifier "c"] =
      some (.ok (ASTNode.SQLBinaryExpr
        (ASTNode.SQLBinaryExpr (ASTNode.SQLIdentifier "a" [])
          SQLOperator.EQ (ASTNode.SQLIdentifier "b" []))
        SQLOperator.EQ (ASTNode.SQLIdentifier "c" []))) := rfl

/-- C5: after the argument list of a function call, the parser skips one
token without checking that it is `RParen`: on the tokens of `f(a 1`
(where the token after the arguments is `Number "1"`, not `RParen`),
parsing succeeds with `FunctionCall{f, [a]}` instead of failing. -/
theorem parse_function_call_unchecked_rparen :
    tokenize "f(a 1" = some (.ok [Token.Identifier "f", Token.LParen,
      Token.Identifier "a", Token.Number "1"]) ∧
    parse [Token.Identifier "f", Token.LParen, Token.Identifier "a",
           Token.Number "1"] =
      some (.ok (ASTNode.SQLFunction "f" [ASTNode.SQLIdentifier "a" []])) :=
  ⟨rfl, rfl⟩

/-- C6: `parse_sql "SELECT 1 < 2"` fails with the "no infix rule"
`ParserError`: `Lt` has precedence 20, so the infix step is entered, but
only `Eq` and `Gt` build a `BinaryExpr` there. -/
theorem parse_sql_lt_no_infix_rule :
    parse_sql "SELECT 1 < 2" =
      some (.error (.ParserError "No infix parser for token Lt")) ∧
    getPrecedence Token.Lt = 20 :=
  ⟨rfl, rfl⟩

/-- Helper for C9: on a nonempty all-digit string, Rust i64 parsing
succeeds exactly when the value fits below 2^63. -/
theorem parseI64_digits (s : String) (hd : s.data.all isDigitChar)
    (hne : s.data ≠ []) :
    parseI64 s = if digitsToNat s.data ≤ 2 ^ 63 - 1
      then some ((digitsToNat s.data : Int)) else none := by
  obtain ⟨c, rest, hs⟩ : ∃ c rest, s.data = c :: rest := by
    cases h : s.data with
    | nil => exact absurd h hne
    | cons a l => exact ⟨a, l, rfl⟩
  rw [hs] at hd
  simp only [List.all_cons, Bool.and_eq_true] at hd
  obtain ⟨hc, hrest⟩ := hd
  have hcm : ¬(c = '-') := fun h => by subst h; exact absurd hc (by decide)
  have hcp : ¬(c = '+') := fun h => by subst h; exact absurd hc (by decide)
  simp only [parseI64, hs]
  simp [hcm, hcp, hc, hrest]

/-- C9: when the prefix parser consumes a `Number` token whose digit text
fits in a 64-bit signed integer it returns the `IntegerLiteral` of that
value; when the digit text exceeds the i64 range the `unwrap` on the
conversion panics (modelled as `none`), so the failure is never returned
as a recoverable `ParserError`. -/
theorem parsePrefixRule_number_literal (toks : List Token) (i : Nat) (s : String)
    (h : toks[i]? = some (Token.Number s)) (hd : s.data.all isDigitChar)
    (hne : s.data ≠ []) :
    (digitsToNat s.data ≤ 2 ^ 63 - 1 → ∀ fuel,
      parsePrefixRule fuel toks i =
        some (.ok (ASTNode.SQLLiteralInt (digitsToNat s.data), i + 1))) ∧
    (2 ^ 63 ≤ digitsToNat s.data → ∀ fuel,
      parsePrefixRule fuel toks i = none) := by
  have hp := parseI64_digits s hd hne
  constructor
  · intro hle fuel
    rw [if_pos hle] at hp
    simp [parsePrefixRule_eq, h, hp]
  · intro hge fuel
    rw [if_neg (by omega)] at hp
    simp [parsePrefixRule_eq, h, hp]

/-- Witness for C9: the one-digit literal `1` parses to `IntegerLiteral 1`;
the 19-digit text `9223372036854775808` (2^63, one past i64::MAX) panics. -/
theorem parsePrefixRule_number_literal_witness :
    parsePrefixRule 5 [Token.Number "1"] 0 =
      some (.ok (ASTNode.SQLLiteralInt 1, 1)) ∧
    parsePrefixRule 5 [Token.Number "9223372036854775808"] 0 = none := by
  constructor
  · have h := (parsePrefixRule_number_literal [Token.Number "1"] 0 "1"
      (by rfl) (by decide) (by decide)).1 (by decide) 5
    simpa using h
  · exact (parsePrefixRule_number_literal [Token.Number "9223372036854775808"] 0
      "9223372036854775808" (by rfl) (by decide) (by decide)).2 (by decide) 5


/-- C10: `ST_Point.execute` returns a descriptive `ExecutionError` whenever
the argument count differs from 2 or either argument is not a Float64
column, and succeeds with the struct-of-arrays column of the two input
arrays when both arguments are Float64 columns — never any partial
result. -/
theorem stPointExecute_spec (args : List Value) :
    (args.length ≠ 2 →
      stPointExecute args = .error (.Custom "Wrong argument count for ST_Point")) ∧
    (∀ l1 xs l2 ys,
      args = [Value.Column (CArray.mk l1 (CArrayData.Float64 xs)),
              Value.Column (CArray.mk l2 (CArrayData.Float64 ys))] →
      stPointExecute args = .ok (Value.Column (CArray.mk l1 (CArrayData.Struct
        [CArray.mk l1 (CArrayData.Float64 xs), CArray.mk l2 (CArrayData.Float64 ys)])))) ∧
    (args.length = 2 →
      (¬ ∃ l1 xs l2 ys,
        args = [Value.Column (CArray.mk l1 (CArrayData.Float64 xs)),
                Value.Column (CArray.mk l2 (CArrayData.Float64 ys))]) →
      stPointExecute args = .error (.Custom "Unsupported type for ST_Point")) := by
  refine ⟨?_, ?_, ?_⟩
  · intro h
    simp [stPointExecute, h]
  · intro l1 xs l2 ys h
    subst h
    simp [stPointExecute, CArray.data, CArray.len]
  · intro hlen hnot
    match args with
    | [a, b] =>
      match a, b with
      | Value.Column (CArray.mk l1 d1), Value.Column (CArray.mk l2 d2) =>
        match d1, d2 with
        | CArrayData.Float64 xs, CArrayData.Float64 ys =>
          exact absurd ⟨l1, xs, l2, ys, rfl⟩ hnot
        | CArrayData.Float64 _, CArrayData.Int64 _
        | CArrayData.Float64 _, CArrayData.Utf8 _
        | CArrayData.Float64 _, CArrayData.Struct _
        | CArrayData.Int64 _, _
        | CArrayData.Utf8 _, _
        | CArrayData.Struct _, _ =>
          simp [stPointExecute, CArray.data]
      | Value.Column (CArray.mk l1 d1), Value.ScalarInt v => simp [stPointExecute]
      | Value.ScalarInt v, _ => simp [stPointExecute]

/-- Witness for C10: wrong count on `[]`, success on two empty Float64
columns, type error on an Int64 first argument. -/
theorem stPointExecute_spec_witness :
    stPointExecute [] = .error (.Custom "Wrong argument count for ST_Point") ∧
    stPointExecute [Value.Column (CArray.mk 0 (CArrayData.Float64 [])),
                    Value.Column (CArray.mk 0 (CArrayData.Float64 []))] =
      .ok (Value.Column (CArray.mk 0 (CArrayData.Struct
        [CArray.mk 0 (CArrayData.Float64 []), CArray.mk 0 (CArrayData.Float64 [])]))) ∧
    stPointExecute [Value.Column (CArray.mk 0 (CArrayData.Int64 [])),
                    Value.Column (CArray.mk 0 (CArrayData.Float64 []))] =
      .error (.Custom "Unsupported type for ST_Point") := by
  refine ⟨(stPointExecute_spec []).1 (by decide), ?_, ?_⟩
  · exact (stPointExecute_spec _).2.1 0 [] 0 [] rfl
  · refine (stPointExecute_spec _).2.2 (by rfl) ?_
    rintro ⟨l1, xs, l2, ys, h⟩
    simp at h

/-- C7: two query strings that differ only in the amount or kind of
whitespace between tokens (that is, whose whitespace normalizations
coincide) tokenize to identical token sequences, and a successful
tokenization never contains the `Whitespace` token. -/
theorem tokenize_whitespace_invariant (s t : String) :
    (squeeze s.data = squeeze t.data → tokenize s = tokenize t) ∧
    (∀ ts, tokenize s = some (.ok ts) → Token.Whitespace ∉ ts) := by
  constructor
  · intro h
    rw [tokenize, tokenize,
      tokenizeChars_squeeze_bounded s.data.length s.data le_rfl, h,
      ← tokenizeChars_squeeze_bounded t.data.length t.data le_rfl]
  · intro ts h
    rw [tokenize, tokenizeChars] at h
    match hr : tokenizeRaw s.data with
    | none => rw [hr] at h; simp at h
    | some (.error e) => rw [hr] at h; simp [Except.map] at h
    | some (.ok ts0) =>
      rw [hr] at h
      simp only [Option.map_some', Except.map, Option.some.injEq] at h
      have hts : List.filter notWs ts0 = ts := by injection h
      intro hmem
      rw [← hts] at hmem
      have := List.of_mem_filter hmem
      simp [notWs] at this

/-- Witness for C7: one space versus a tab inside `SELECT 1`, and the
whitespace-free token list of that query. -/
theorem tokenize_whitespace_invariant_witness :
    tokenize "SELECT  1" = tokenize "SELECT\t1" ∧
    Token.Whitespace ∉ [Token.Keyword "SELECT", Token.Number "1"] := by
  constructor
  · exact (tokenize_whitespace_invariant "SELECT  1" "SELECT\t1").1 (by decide)
  · exact (tokenize_whitespace_invariant "SELECT  1" "SELECT\t1").2
      [Token.Keyword "SELECT", Token.Number "1"] (by rfl)

/-- C8 counterexample: `"@x"` is an identifier-shaped word by the claim's
definition (start `'@'`, then letters), but the scanner's greedy loop never
consumes `'@'`, so tokenization loops forever (modelled as `none`) and in
particular never returns `Identifier "@x"`. -/
theorem tokenize_at_word_diverges :
    tokenize "@x" = none ∧
    tokenize "@x" ≠ some (.ok [Token.Identifier "@x"]) := by
  refine ⟨rfl, ?_⟩
  intro h
  rw [show tokenize "@x" = none from rfl] at h
  simp at h

/-- C8 (amended): for every identifier-shaped word starting with a letter
or underscore (`'@'`-starting words instead make the scanner loop forever),
tokenize emits a single token holding the as-typed text: `Keyword` exactly
when the uppercased word is one of the 15 fixed keywords, `Identifier`
otherwise. -/
theorem tokenize_keyword_identifier (c : Char) (cs : List Char)
    (hstart : isLetterChar c = true ∨ c = '_')
    (hrest : ∀ d, d ∈ cs → isWordChar d = true) :
    tokenize (String.mk (c :: cs)) =
      some (.ok [if keywords.contains (toUpperStr (String.mk (c :: cs)))
        then Token.Keyword (String.mk (c :: cs))
        else Token.Identifier (String.mk (c :: cs))]) := by
  have hw : isWordChar c = true := by
    rcases hstart with hl | hu
    · simp [isWordChar, hl]
    · subst hu; decide
  have hst : isWordStart c = true := by
    rcases hstart with hl | hu
    · simp [isWordStart, hl]
    · subst hu; decide
  have hc' : isWsChar c = false := wordChar_not_ws c hw
  have htake : (c :: cs).takeWhile isWordChar = c :: cs := by
    rw [List.takeWhile_eq_self_iff]
    intro x hx
    rcases List.mem_cons.mp hx with hxc | hxcs
    · subst hxc; exact hw
    · exact hrest x hxcs
  have hdrop : (c :: cs).dropWhile isWordChar = [] := by
    rw [List.dropWhile_eq_nil_iff]
    intro x hx
    rcases List.mem_cons.mp hx with hxc | hxcs
    · subst hxc; exact hw
    · exact hrest x hxcs
  have hn := nextToken_word c cs hc' hst
  rw [htake, hdrop] at hn
  have hstep := tokenizeChars_step (c :: cs) (mkWordToken (String.mk (c :: cs))) []
    hn (by simp)
  rw [tokenize]
  rw [show (String.mk (c :: cs)).data = c :: cs from rfl]
  rw [hstep, notWs_mkWordToken, if_pos rfl]
  rw [show tokenizeChars [] = some (.ok []) from rfl]
  rw [mkWordToken]
  rfl

/-- Witness for C8's amended theorem: `"select"` keeps its casing as a
keyword; `"SELECT1"` (keyword text plus a digit) is an identifier. -/
theorem tokenize_keyword_identifier_witness :
    tokenize "select" = some (.ok [Token.Keyword "select"]) ∧
    tokenize "SELECT1" = some (.ok [Token.Identifier "SELECT1"]) := by
  constructor
  · exact tokenize_keyword_identifier 's' "elect".data (Or.inl (by decide)) (by decide)
  · exact tokenize_keyword_identifier 'S' "ELECT1".data (Or.inl (by decide)) (by decide)

end Cuckoo
